import Mathlib

/-!
Verification of the crawlaio crawler core against its specification.

The Python sources are shallowly embedded: strings are `String`/`List Char`,
Python sets are `Finset String` or membership over lists, fallible calls are
oracles supplying each call's outcome. `urlparse` is modelled for the
scheme://netloc/path;query#fragment shape that the crawler's URLs take.
-/

namespace Crawlaio

/-! ## urlparse model (netloc and path extraction)

Models Python's `urllib.parse.urlparse` far enough to recover `.netloc` and
`.path`: the fragment is cut at the first `#`, a valid `scheme:` prefix is
removed, a netloc is present only after `//`, and the query is cut at `?`. -/

def isSchemeChar (c : Char) : Bool :=
  c.isAlphanum || c = '+' || c = '-' || c = '.'

def validScheme (cs : List Char) : Bool :=
  match cs with
  | [] => false
  | c :: rest => c.isAlpha && rest.all isSchemeChar

def stripFragment (cs : List Char) : List Char :=
  cs.takeWhile (fun c => c ≠ '#')

def stripScheme (cs : List Char) : List Char :=
  let pre := cs.takeWhile (fun c => c ≠ ':')
  if pre.length < cs.length && validScheme pre then cs.drop (pre.length + 1) else cs

def netlocAndRest (cs : List Char) : List Char × List Char :=
  if cs.take 2 = ['/', '/'] then
    let rest := cs.drop 2
    let netloc := rest.takeWhile (fun c => c ≠ '/' && c ≠ '?' && c ≠ '#')
    (netloc, rest.drop netloc.length)
  else ([], cs)

def stripQuery (cs : List Char) : List Char :=
  cs.takeWhile (fun c => c ≠ '?')

def urlNetloc (url : String) : String :=
  ⟨(netlocAndRest (stripScheme (stripFragment url.data))).1⟩

def urlPath (url : String) : String :=
  ⟨stripQuery (netlocAndRest (stripScheme (stripFragment url.data))).2⟩

/-! ## utils.py -/

def is_valid_url (url : String) : Bool :=
  ("http://".data.isPrefixOf url.data) || ("https://".data.isPrefixOf url.data)

def get_domain (url : String) : String := urlNetloc url

def should_crawl_url (url : String) (start_url : String) : Bool :=
  urlNetloc start_url == urlNetloc url &&
    (urlPath start_url).data.isPrefixOf (urlPath url).data

/-! ## DocumentProcessor.sanitize_filename and save_chunk_to_file's key -/

/-- Python `str.strip(sep)`: remove leading and trailing occurrences of `sep`. -/
def stripChar (sep : Char) (cs : List Char) : List Char :=
  ((cs.dropWhile (· = sep)).reverse.dropWhile (· = sep)).reverse

def sanitize_filename (url : String) : String :=
  let raw := (urlNetloc url).data ++ '_' :: stripChar '/' (urlPath url).data
  let safe := raw.map (fun c => if c.isAlphanum then c else '_')
  ⟨(stripChar '_' safe).take 200⟩

def save_chunk_filename (url : String) (chunk_number : Nat) : String :=
  sanitize_filename url ++ "_chunk_" ++ toString chunk_number ++ ".json"

/-- Spec-side predicate: no two adjacent separator characters (the spec's
"runs of consecutive separators become a single separator"). -/
def noAdjacentSep : List Char → Bool
  | [] => true
  | [_] => true
  | a :: b :: rest => !(a = '_' && b = '_') && noAdjacentSep (b :: rest)

/-! ## DocumentProcessor.chunk_text

The loop is embedded as a well-founded recursion on `text.length - start`;
the float threshold `chunk_size * 0.3` is modelled as the exact rational
comparison `10 * index > 3 * chunk_size`. -/

def isPySpace (c : Char) : Bool :=
  c = ' ' || c = '\t' || c = '\n' || c = '\x0b' || c = '\x0c' || c = '\r'

/-- Python `str.strip()`: remove leading and trailing whitespace. -/
def pyStrip (cs : List Char) : List Char :=
  ((cs.dropWhile isPySpace).reverse.dropWhile isPySpace).reverse

/-- Python `str.rfind(pat)` for nonempty `pat`: the highest index at which
`pat` occurs in `cs`, or `-1` when it does not occur. -/
def rfind (cs pat : List Char) : Int :=
  match ((List.range cs.length).filter (fun i => pat.isPrefixOf (cs.drop i))).getLast? with
  | some i => (i : Int)
  | none => -1

/-- Python `text[start:e]` for `start ≤ e`. -/
def sliceList (text : List Char) (start e : Nat) : List Char :=
  (text.drop start).take (e - start)

/-- The break offset chosen for the window `chunk = text[start:end0]`:
the source's three right-to-left probes with the 30% threshold. -/
def chunkEnd (chunk_size : Nat) (chunk : List Char) (start end0 : Nat) : Nat :=
  let last_code_block := rfind chunk "\x60\x60\x60".data
  let last_paragraph_break := rfind chunk "\n\n".data
  let last_sentence_break := rfind chunk ". ".data
  if 10 * last_code_block > 3 * (chunk_size : Int) then
    start + last_code_block.toNat
  else if 10 * last_paragraph_break > 3 * (chunk_size : Int) then
    start + last_paragraph_break.toNat
  else if 10 * last_sentence_break > 3 * (chunk_size : Int) then
    start + last_sentence_break.toNat + 1
  else end0

def chunk_text_from (text : List Char) (chunk_size : Nat) (start : Nat) : List (List Char) :=
  if h : start < text.length then
    let end0 := min (start + chunk_size) text.length
    let e := chunkEnd chunk_size (sliceList text start end0) start end0
    let chunk := pyStrip (sliceList text start e)
    let rest := chunk_text_from text chunk_size (max (start + 1) e)
    if chunk.isEmpty then rest else chunk :: rest
  else []
termination_by text.length - start
decreasing_by
  omega

def chunk_text (text : List Char) (chunk_size : Nat) : List (List Char) :=
  chunk_text_from text chunk_size 0

/-- The raw (untrimmed, unfiltered) window slices produced by the same scan. -/
def chunkSpansFrom (text : List Char) (chunk_size : Nat) (start : Nat) : List (List Char) :=
  if h : start < text.length then
    let end0 := min (start + chunk_size) text.length
    let e := chunkEnd chunk_size (sliceList text start end0) start end0
    sliceList text start e :: chunkSpansFrom text chunk_size (max (start + 1) e)
  else []
termination_by text.length - start
decreasing_by
  omega

def chunkSpans (text : List Char) (chunk_size : Nat) : List (List Char) :=
  chunkSpansFrom text chunk_size 0

/-! ## SitemapGenerator -/

structure SitemapGenerator where
  domain : String
  start_url : String
  urls : Finset String
deriving DecidableEq

def SitemapGenerator.add_url (s : SitemapGenerator) (url : String) : SitemapGenerator :=
  if get_domain url = s.domain then { s with urls := insert url s.urls } else s

/-- Models `save_sitemap`: one `<loc>` entry per URL in sorted order; the file
is modelled as that list of entries (XML serialization abstracted). -/
def SitemapGenerator.save_sitemap (s : SitemapGenerator) : List String :=
  s.urls.sort (· ≤ ·)

/-- Python `url.rstrip('/')`: remove all trailing slashes. -/
def rstripSlash (url : String) : String :=
  ⟨(url.data.reverse.dropWhile (· = '/')).reverse⟩

/-- Models `load_urls`: `none` stands for a missing sitemap file (returns the empty set,
not an error); otherwise every `<loc>` text is normalized by `rstrip('/')`
and kept only if it passes `should_crawl_url` against the start URL. -/
def load_urls (file : Option (List String)) (start_url : String) : Finset String :=
  match file with
  | none => ∅
  | some locs =>
    locs.foldl (fun acc loc =>
      let normalized := rstripSlash loc
      if should_crawl_url normalized start_url then insert normalized acc else acc) ∅

/-! ## ollama_client.py

The HTTP transport and `json.loads` are external collaborators; each call's
outcome is supplied as an oracle value and the client's control flow around
them is embedded. -/

/-- A Python value as far as `get_title_and_summary` inspects one:
`isinstance(data, dict)`, a string to be fed to `json.loads`, or anything
else (on which `json.loads` raises `TypeError`). -/
inductive PyJson where
  | str (s : String)
  | dict (entries : List (String × String))
  | other
deriving DecidableEq

/-- Outcome of the single `/api/generate` request: an exception while
requesting or checking the status, or the value of
`response.json().get("response")` (`none` when the key is absent). -/
inductive GenOutcome where
  | transportError
  | response (data : Option PyJson)
deriving DecidableEq

def sentinelPair : PyJson :=
  .dict [("title", "Error processing title"), ("summary", "Error processing summary")]

/-- Models `get_title_and_summary` given the outcome of its one request and the
behavior of `json.loads` (`none` models `JSONDecodeError`). `json.loads`
applied to a non-string (key absent or ill-typed) raises `TypeError`, which
the outer `except Exception` turns into the sentinel pair as well. -/
def get_title_and_summary (loads : String → Option PyJson) (call : GenOutcome) : PyJson :=
  match call with
  | .transportError => sentinelPair
  | .response none => sentinelPair
  | .response (some (.dict d)) => .dict d
  | .response (some .other) => sentinelPair
  | .response (some (.str s)) =>
    match loads s with
    | some v => v
    | none => sentinelPair

/-- Outcome of one `/api/embeddings` request: an exception, or
`response.json()` with an optional `"embedding"` field (Python's
`.get("embedding", [0] * 768)` substitutes the zero vector when absent). -/
inductive EmbedOutcome where
  | exn
  | json (embedding : Option (List Int))
deriving DecidableEq

/-- Models `retry_with_backoff(func, max_retries)` from attempt index `attempt`:
returns the outcome (`Except.error` = the re-raised final exception;
`Except.ok none` = Python's implicit `None` on loop fall-through), the number
of attempts made, and the backoff waits (`2 ^ attempt`) performed. -/
def retry_with_backoff (oracle : Nat → EmbedOutcome) (max_retries attempt : Nat) :
    Except Unit (Option (List Int)) × Nat × List Nat :=
  if attempt < max_retries then
    match oracle attempt with
    | .json e => (Except.ok (some (e.getD (List.replicate 768 0))), attempt + 1, [])
    | .exn =>
      if attempt = max_retries - 1 then (Except.error (), attempt + 1, [])
      else
        let r := retry_with_backoff oracle max_retries (attempt + 1)
        (r.1, r.2.1, 2 ^ attempt :: r.2.2)
  else (Except.ok none, attempt, [])
termination_by max_retries - attempt

/-- Models `get_embedding`: `retry_with_backoff(_get_embedding)` with the default
`max_retries = 3`; an escaping exception is replaced by the zero vector of
the configured dimensionality 768. Returns the value and the attempt count. -/
def get_embedding (oracle : Nat → EmbedOutcome) : Option (List Int) × Nat :=
  match (retry_with_backoff oracle 3 0).1 with
  | .ok v => (v, (retry_with_backoff oracle 3 0).2.1)
  | .error _ => (some (List.replicate 768 0), (retry_with_backoff oracle 3 0).2.1)

/-! ## WebCrawler.crawl_parallel

The asyncio event loop is modelled as an interleaving of atomic segments:
code between two suspension points (`await`s) runs without interference.
`process_url`'s membership guard and `queued_urls.add` (lines 83–85 of
WebCrawler.py) contain no `await` and so form a single atomic segment. -/

inductive Stage where
  | entry     -- a call of process_url about to run its guard/insert segment
  | acquired  -- past the guard, url recorded in queued_urls, before arun
  | fetching  -- crawler.arun in flight
deriving DecidableEq

structure WTask where
  url : String
  retry_count : Nat
  stage : Stage
deriving DecidableEq

structure CrawlState where
  start_url : String
  max_retries : Nat
  processed_urls : List String
  queued_urls : List String
  tasks : List WTask
  fetchCount : String → Nat

/-- Scheduler/fetcher events, each advancing one task by one atomic segment:
a worker pulling a URL off the shared queue (lines 72–74), the guard/insert
segment (83–85), the semaphore grant plus `arun` dispatch (86–92), and the
two fetch outcomes (93–119 and 120–131). Out-of-range indices and stage
mismatches are no-ops. -/
inductive Act where
  | dispatch (url : String)
  | runGuard (i : Nat)
  | beginFetch (i : Nat)
  | finishSuccess (i : Nat)
  | finishFailure (i : Nat)

def step (s : CrawlState) (a : Act) : CrawlState :=
  match a with
  | .dispatch url =>
    if url ∈ s.processed_urls then s
    else { s with tasks := s.tasks ++ [⟨url, 0, .entry⟩] }
  | .runGuard i =>
    match s.tasks[i]? with
    | some t =>
      if t.stage = .entry then
        if t.url ∈ s.processed_urls ∨ t.url ∈ s.queued_urls ∨
            should_crawl_url t.url s.start_url = false then
          { s with tasks := s.tasks.eraseIdx i }
        else
          { s with queued_urls := t.url :: s.queued_urls,
                   tasks := s.tasks.set i ⟨t.url, t.retry_count, .acquired⟩ }
      else s
    | none => s
  | .beginFetch i =>
    match s.tasks[i]? with
    | some t =>
      if t.stage = .acquired then
        { s with tasks := s.tasks.set i ⟨t.url, t.retry_count, .fetching⟩,
                 fetchCount := Function.update s.fetchCount t.url
                   (s.fetchCount t.url + 1) }
      else s
    | none => s
  | .finishSuccess i =>
    match s.tasks[i]? with
    | some t =>
      if t.stage = .fetching then
        { s with processed_urls := t.url :: s.processed_urls,
                 tasks := s.tasks.eraseIdx i }
      else s
    | none => s
  | .finishFailure i =>
    match s.tasks[i]? with
    | some t =>
      if t.stage = .fetching then
        if t.retry_count < s.max_retries then
          { s with tasks := s.tasks.set i ⟨t.url, t.retry_count + 1, .entry⟩ }
        else
          { s with tasks := s.tasks.eraseIdx i }
      else s
    | none => s

def runTrace (s : CrawlState) (acts : List Act) : CrawlState :=
  acts.foldl step s

def initState (start_url : String) (max_retries : Nat) : CrawlState :=
  ⟨start_url, max_retries, [], [], [], fun _ => 0⟩

def countStage (ts : List WTask) (u : String) (st : Stage) : Nat :=
  ts.countP (fun t => decide (t.url = u ∧ t.stage = st))

def Inv (s : CrawlState) : Prop :=
  ∀ u : String,
    countStage s.tasks u .acquired + s.fetchCount u ≤ 1 ∧
    countStage s.tasks u .fetching ≤ s.fetchCount u ∧
    (u ∉ s.queued_urls →
      countStage s.tasks u .acquired = 0 ∧
      countStage s.tasks u .fetching = 0 ∧
      s.fetchCount u = 0)

/-! ### The retry path under an always-failing fetcher (C2) -/

structure RetrySt where
  processed_urls : List String
  queued_urls : List String
  attempts : Nat
deriving DecidableEq

/-- Models `process_url(url, retry_count)` under a fetcher that fails on every
attempt, run to completion sequentially: the guard (line 83), the
`queued_urls` insertion (85), the failing `arun` (counted in `attempts`),
and the recursive retry call with incremented counter (lines 128–131). -/
def process_url_failing (start_url : String) (max_retries : Nat) :
    RetrySt → String → Nat → RetrySt
  | st, url, retry_count =>
    if url ∈ st.processed_urls ∨ url ∈ st.queued_urls ∨
        should_crawl_url url start_url = false then st
    else
      let st2 : RetrySt :=
        ⟨st.processed_urls, url :: st.queued_urls, st.attempts + 1⟩
      if retry_count < max_retries then
        process_url_failing start_url max_retries st2 url (retry_count + 1)
      else st2
termination_by _st _url retry_count => max_retries + 1 - retry_count
decreasing_by
  omega

lemma mem_stripChar {sep : Char} {cs : List Char} {c : Char}
    (h : c ∈ stripChar sep cs) : c ∈ cs := by
  unfold stripChar at h
  rw [List.mem_reverse] at h
  have h1 := (List.dropWhile_sublist (l := (cs.dropWhile (· = sep)).reverse)
    (p := (· = sep))).mem h
  rw [List.mem_reverse] at h1
  exact (List.dropWhile_sublist (p := (· = sep))).mem h1

lemma chunkEnd_ge (chunk_size : Nat) (chunk : List Char) (start end0 : Nat)
    (hcs : 1 ≤ chunk_size) (he0 : start + 1 ≤ end0) :
    start + 1 ≤ chunkEnd chunk_size chunk start end0 := by
  simp only [chunkEnd]
  split_ifs with h1 h2 h3 <;> omega

lemma chunk_text_from_eq_spans (text : List Char) (chunk_size : Nat) :
    ∀ start, chunk_text_from text chunk_size start =
      ((chunkSpansFrom text chunk_size start).map pyStrip).filter (fun l => !l.isEmpty) := by
  have H : ∀ n start, text.length - start ≤ n →
      chunk_text_from text chunk_size start =
        ((chunkSpansFrom text chunk_size start).map pyStrip).filter (fun l => !l.isEmpty) := by
    intro n
    induction n with
    | zero =>
      intro start hn
      rw [chunk_text_from.eq_def, chunkSpansFrom.eq_def]
      have : ¬ start < text.length := by omega
      simp [this]
    | succ n ih =>
      intro start hn
      rw [chunk_text_from.eq_def, chunkSpansFrom.eq_def]
      by_cases h : start < text.length
      · simp only [h, dif_pos, List.map_cons, List.filter_cons]
        have hrec := ih (max (start + 1)
          (chunkEnd chunk_size
            (sliceList text start (min (start + chunk_size) text.length)) start
            (min (start + chunk_size) text.length))) (by omega)
        rw [hrec]
        by_cases hemp : (pyStrip (sliceList text start
            (chunkEnd chunk_size
              (sliceList text start (min (start + chunk_size) text.length)) start
              (min (start + chunk_size) text.length)))).isEmpty
        · simp [hemp]
        · simp [hemp]
      · simp [h]
  intro start
  exact H (text.length - start) start le_rfl

lemma chunkSpansFrom_flatten (text : List Char) (chunk_size : Nat)
    (hcs : 1 ≤ chunk_size) :
    ∀ start, (chunkSpansFrom text chunk_size start).flatten = text.drop start := by
  have H : ∀ n start, text.length - start ≤ n →
      (chunkSpansFrom text chunk_size start).flatten = text.drop start := by
    intro n
    induction n with
    | zero =>
      intro start hn
      rw [chunkSpansFrom.eq_def]
      have h : ¬ start < text.length := by omega
      simp only [h, dif_neg, List.flatten_nil]
      exact (List.drop_eq_nil_of_le (by omega)).symm
    | succ n ih =>
      intro start hn
      rw [chunkSpansFrom.eq_def]
      by_cases h : start < text.length
      · simp only [h, dif_pos, List.flatten_cons]
        set e := chunkEnd chunk_size
          (sliceList text start (min (start + chunk_size) text.length)) start
          (min (start + chunk_size) text.length) with he
        have hge : start + 1 ≤ e := by
          apply chunkEnd_ge _ _ _ _ hcs
          omega
        have hmax : max (start + 1) e = e := by omega
        rw [hmax, ih e (by omega)]
        show (text.drop start).take (e - start) ++ text.drop e = text.drop start
        have : text.drop e = (text.drop start).drop (e - start) := by
          rw [List.drop_drop]
          congr 1
          omega
        rw [this, List.take_append_drop]
      · simp only [h, dif_neg, List.flatten_nil]
        exact (List.drop_eq_nil_of_le (by omega)).symm
  intro start
  exact H (text.length - start) start le_rfl

lemma chunkSpansFrom_mem (text : List Char) (chunk_size : Nat)
    (hcs : 1 ≤ chunk_size) :
    ∀ start, ∀ l ∈ chunkSpansFrom text chunk_size start,
      l ≠ [] ∧ ∀ c ∈ l, c ∈ text := by
  have H : ∀ n start, text.length - start ≤ n →
      ∀ l ∈ chunkSpansFrom text chunk_size start, l ≠ [] ∧ ∀ c ∈ l, c ∈ text := by
    intro n
    induction n with
    | zero =>
      intro start hn l hl
      rw [chunkSpansFrom.eq_def] at hl
      have h : ¬ start < text.length := by omega
      simp [h] at hl
    | succ n ih =>
      intro start hn l hl
      rw [chunkSpansFrom.eq_def] at hl
      by_cases h : start < text.length
      · simp only [h, dif_pos, List.mem_cons] at hl
        rcases hl with hl | hl
        · subst hl
          set e := chunkEnd chunk_size
            (sliceList text start (min (start + chunk_size) text.length)) start
            (min (start + chunk_size) text.length) with he
          have hge : start + 1 ≤ e := by
            apply chunkEnd_ge _ _ _ _ hcs
            omega
          constructor
          · show (text.drop start).take (e - start) ≠ []
            have h1 : 0 < ((text.drop start).take (e - start)).length := by
              rw [List.length_take, List.length_drop]
              omega
            exact List.length_pos.mp h1
          · intro c hc
            have h1 := (List.take_sublist _ _).mem hc
            exact (List.drop_sublist _ _).mem h1
        · exact ih (max (start + 1)
            (chunkEnd chunk_size
              (sliceList text start (min (start + chunk_size) text.length)) start
              (min (start + chunk_size) text.length))) (by omega) l hl
      · simp [h] at hl
  intro start
  exact H (text.length - start) start le_rfl

lemma pyStrip_of_no_space (l : List Char) (h : ∀ c ∈ l, isPySpace c = false) :
    pyStrip l = l := by
  have hdw : ∀ m : List Char, (∀ c ∈ m, isPySpace c = false) → m.dropWhile isPySpace = m := by
    intro m hm
    cases m with
    | nil => rfl
    | cons a t =>
      rw [List.dropWhile_cons]
      simp [hm a (List.mem_cons_self a t)]
  unfold pyStrip
  rw [hdw l h, hdw l.reverse (fun c hc => h c (List.mem_reverse.mp hc)), List.reverse_reverse]

lemma chunk_text_single_zero : chunk_text "a".data 0 = [] := by
  rw [chunk_text, chunk_text_from.eq_def]
  norm_num [chunkEnd, rfind, sliceList, pyStrip]
  rw [chunk_text_from.eq_def]
  norm_num

lemma load_urls_foldl (start_url : String) (locs : List String) :
    ∀ acc : Finset String,
      locs.foldl (fun acc loc =>
        let normalized := rstripSlash loc
        if should_crawl_url normalized start_url then insert normalized acc else acc) acc =
      acc ∪ ((locs.map rstripSlash).filter
        (fun u => should_crawl_url u start_url)).toFinset := by
  induction locs with
  | nil => intro acc; simp
  | cons l ls ih =>
    intro acc
    rw [List.foldl_cons, ih, List.map_cons, List.filter_cons]
    by_cases h : should_crawl_url (rstripSlash l) start_url
    · simp only [h, if_pos, if_true]
      rw [List.toFinset_cons, Finset.union_insert, Finset.insert_union]
    · simp [h]

lemma load_urls_some (start_url : String) (locs : List String) :
    load_urls (some locs) start_url =
      ((locs.map rstripSlash).filter (fun u => should_crawl_url u start_url)).toFinset := by
  rw [load_urls, load_urls_foldl]
  simp

lemma countP_eraseIdx_add {α : Type} (p : α → Bool) :
    ∀ (l : List α) (i : Nat) (h : i < l.length),
      (l.eraseIdx i).countP p + (if p (l.get ⟨i, h⟩) then 1 else 0) = l.countP p := by
  intro l
  induction l with
  | nil => intro i h; simp at h
  | cons a t ih =>
    intro i h
    cases i with
    | zero => simp [List.countP_cons]
    | succ n =>
      have hn : n < t.length := by simpa using h
      have := ih n hn
      simp only [List.eraseIdx_cons_succ, List.countP_cons, List.get_cons_succ]
      omega

lemma countStage_eraseIdx (ts : List WTask) (i : Nat) (hi : i < ts.length)
    (u : String) (st : Stage) :
    countStage (ts.eraseIdx i) u st +
      (if ts[i].url = u ∧ ts[i].stage = st then 1 else 0) =
    countStage ts u st := by
  have := countP_eraseIdx_add (fun t => decide (t.url = u ∧ t.stage = st)) ts i hi
  simpa [countStage] using this

lemma countStage_set (ts : List WTask) (i : Nat) (hi : i < ts.length)
    (t' : WTask) (u : String) (st : Stage) :
    countStage (ts.set i t') u st =
      (countStage ts u st - (if ts[i].url = u ∧ ts[i].stage = st then 1 else 0)) +
      (if t'.url = u ∧ t'.stage = st then 1 else 0) := by
  have := List.countP_set (fun t => decide (t.url = u ∧ t.stage = st)) ts i t' hi
  simpa [countStage] using this

lemma countStage_pos (ts : List WTask) (i : Nat) (hi : i < ts.length)
    (u : String) (st : Stage) (hu : ts[i].url = u) (hst : ts[i].stage = st) :
    1 ≤ countStage ts u st := by
  have hmem : ts[i] ∈ ts := List.getElem_mem hi
  have : 0 < ts.countP (fun t => decide (t.url = u ∧ t.stage = st)) := by
    rw [List.countP_pos_iff]
    exact ⟨ts[i], hmem, by simp [hu, hst]⟩
  simpa [countStage] using this

lemma countStage_append_single (ts : List WTask) (t : WTask) (u : String) (st : Stage) :
    countStage (ts ++ [t]) u st =
      countStage ts u st + (if t.url = u ∧ t.stage = st then 1 else 0) := by
  simp [countStage, List.countP_append, List.countP_cons]

lemma Inv_step (s : CrawlState) (a : Act) (h : Inv s) : Inv (step s a) := by
  intro u
  obtain ⟨h1, h2, h3⟩ := h u
  cases a with
  | dispatch url =>
    by_cases hp : url ∈ s.processed_urls
    · simpa [step, hp] using ⟨h1, h2, h3⟩
    · simp only [step, hp, if_false]
      refine ⟨?_, ?_, fun hq => ?_⟩
      · rw [countStage_append_single]
        simpa using h1
      · rw [countStage_append_single]
        simpa using h2
      · rw [countStage_append_single, countStage_append_single]
        have := h3 hq
        simp
        refine ⟨this.1, this.2.1, this.2.2⟩
  | runGuard i =>
    cases hti : s.tasks[i]? with
    | none => simp only [step, hti]; exact ⟨h1, h2, h3⟩
    | some t =>
      obtain ⟨hi, hgt⟩ := List.getElem?_eq_some.mp hti
      by_cases hstage : t.stage = .entry
      · by_cases hguard : t.url ∈ s.processed_urls ∨ t.url ∈ s.queued_urls ∨
            should_crawl_url t.url s.start_url = false
        · simp only [step, hti, hstage, hguard, if_true]
          have hA := countStage_eraseIdx s.tasks i hi u .acquired
          have hF := countStage_eraseIdx s.tasks i hi u .fetching
          refine ⟨by omega, by omega, fun hq => ?_⟩
          have := h3 hq
          omega
        · simp only [step, hti, hstage, hguard, if_true, if_false]
          push_neg at hguard
          obtain ⟨-, hnq, -⟩ := hguard
          have hA := countStage_set s.tasks i hi ⟨t.url, t.retry_count, .acquired⟩ u .acquired
          have hF := countStage_set s.tasks i hi ⟨t.url, t.retry_count, .acquired⟩ u .fetching
          by_cases hu : t.url = u
          · subst hu
            have hz := h3 hnq
            rw [hgt] at hA hF
            simp [hstage] at hA hF
            refine ⟨by omega, by omega, fun hq => ?_⟩
            exact absurd (List.mem_cons_self _ _) hq
          · rw [hgt] at hA hF
            simp [hu] at hA hF
            refine ⟨by omega, by omega, fun hq => ?_⟩
            have hq' : u ∉ s.queued_urls := fun hm => hq (List.mem_cons_of_mem _ hm)
            have := h3 hq'
            omega
      · simp only [step, hti, hstage, if_false]
        exact ⟨h1, h2, h3⟩
  | beginFetch i =>
    cases hti : s.tasks[i]? with
    | none => simp only [step, hti]; exact ⟨h1, h2, h3⟩
    | some t =>
      obtain ⟨hi, hgt⟩ := List.getElem?_eq_some.mp hti
      by_cases hstage : t.stage = .acquired
      · simp only [step, hti, hstage, if_true]
        have hA := countStage_set s.tasks i hi ⟨t.url, t.retry_count, .fetching⟩ u .acquired
        have hF := countStage_set s.tasks i hi ⟨t.url, t.retry_count, .fetching⟩ u .fetching
        by_cases hu : t.url = u
        · subst hu
          have hpos' : 1 ≤ countStage s.tasks t.url .acquired := by
            apply countStage_pos s.tasks i hi t.url .acquired
            · rw [hgt]
            · rw [hgt]; exact hstage
          rw [hgt] at hA hF
          simp [hstage] at hA hF
          have hq' : t.url ∈ s.queued_urls := by
            by_contra hq
            have := (h3 hq).1
            omega
          refine ⟨?_, ?_, fun hq => absurd hq' hq⟩
          · rw [Function.update_same]
            omega
          · rw [Function.update_same]
            omega
        · rw [hgt] at hA hF
          simp [hu] at hA hF
          refine ⟨?_, ?_, fun hq => ?_⟩
          · rw [Function.update_noteq (fun hc => hu hc.symm)]
            omega
          · rw [Function.update_noteq (fun hc => hu hc.symm)]
            omega
          · rw [Function.update_noteq (fun hc => hu hc.symm)]
            have := h3 hq
            omega
      · simp only [step, hti, hstage, if_false]
        exact ⟨h1, h2, h3⟩
  | finishSuccess i =>
    cases hti : s.tasks[i]? with
    | none => simp only [step, hti]; exact ⟨h1, h2, h3⟩
    | some t =>
      obtain ⟨hi, hgt⟩ := List.getElem?_eq_some.mp hti
      by_cases hstage : t.stage = .fetching
      · simp only [step, hti, hstage, if_true]
        have hA := countStage_eraseIdx s.tasks i hi u .acquired
        have hF := countStage_eraseIdx s.tasks i hi u .fetching
        refine ⟨by omega, by omega, fun hq => ?_⟩
        have := h3 hq
        omega
      · simp only [step, hti, hstage, if_false]
        exact ⟨h1, h2, h3⟩
  | finishFailure i =>
    cases hti : s.tasks[i]? with
    | none => simp only [step, hti]; exact ⟨h1, h2, h3⟩
    | some t =>
      obtain ⟨hi, hgt⟩ := List.getElem?_eq_some.mp hti
      by_cases hstage : t.stage = .fetching
      · by_cases hretry : t.retry_count < s.max_retries
        · simp only [step, hti, hstage, hretry, if_true]
          have hA := countStage_set s.tasks i hi ⟨t.url, t.retry_count + 1, .entry⟩ u .acquired
          have hF := countStage_set s.tasks i hi ⟨t.url, t.retry_count + 1, .entry⟩ u .fetching
          rw [hgt] at hA hF
          simp [hstage] at hA hF
          refine ⟨by omega, by omega, fun hq => ?_⟩
          have := h3 hq
          omega
        · simp only [step, hti, hstage, hretry, if_true, if_false]
          have hA := countStage_eraseIdx s.tasks i hi u .acquired
          have hF := countStage_eraseIdx s.tasks i hi u .fetching
          refine ⟨by omega, by omega, fun hq => ?_⟩
          have := h3 hq
          omega
      · simp only [step, hti, hstage, if_false]
        exact ⟨h1, h2, h3⟩

lemma Inv_initState (start_url : String) (max_retries : Nat) :
    Inv (initState start_url max_retries) := by
  intro u
  refine ⟨?_, ?_, fun _ => ⟨rfl, rfl, rfl⟩⟩ <;> simp [initState, countStage]

lemma Inv_runTrace (s : CrawlState) (acts : List Act) (h : Inv s) :
    Inv (runTrace s acts) := by
  induction acts generalizing s with
  | nil => simpa [runTrace] using h
  | cons a rest ih =>
    rw [runTrace, List.foldl_cons]
    exact ih (step s a) (Inv_step s a h)

/-- C1: along every interleaving of worker and fetch events from the initial
crawler state, each URL is fetched at most once for the whole run — so a URL
reachable from two different parent pages is fetched at most once — and at
most one fetch per URL is ever in flight: `process_url`'s membership guard
and its `queued_urls` insertion form one suspension-free atomic segment
executed before the fetch call. -/
theorem per_url_at_most_one_fetch (start_url : String) (max_retries : Nat)
    (acts : List Act) (u : String) :
    (runTrace (initState start_url max_retries) acts).fetchCount u ≤ 1 ∧
    countStage (runTrace (initState start_url max_retries) acts).tasks u .fetching ≤ 1 := by
  obtain ⟨h1, h2, -⟩ :=
    Inv_runTrace _ acts (Inv_initState start_url max_retries) u
  exact ⟨by omega, by omega⟩

/-- C2 (evaluation of the code on the claim's scenario): with a fetcher that
always fails, a fresh in-scope URL is attempted exactly once for every
`max_retries` — the recursive retry call returns at the `queued_urls`
membership guard, since the URL was inserted there before the fetch and is
never removed — not the claimed `max_retries + 1` times. -/
theorem failing_fetch_attempted_once (start_url url : String) (max_retries : Nat)
    (hscope : should_crawl_url url start_url = true) :
    (process_url_failing start_url max_retries ⟨[], [], 0⟩ url 0).attempts = 1 := by
  rw [process_url_failing.eq_def]
  simp only [List.not_mem_nil, hscope, Bool.true_eq_false, or_self, or_false, if_false]
  by_cases h : 0 < max_retries
  · simp only [h, if_true]
    rw [process_url_failing.eq_def]
    simp
  · simp [h]

theorem failing_fetch_attempted_once_witness :
    should_crawl_url "http://example.com/docs/page" "http://example.com/docs" = true ∧
    (process_url_failing "http://example.com/docs" 3 ⟨[], [], 0⟩
      "http://example.com/docs/page" 0).attempts = 1 :=
  ⟨by decide,
    failing_fetch_attempted_once "http://example.com/docs"
      "http://example.com/docs/page" 3 (by decide)⟩

/-- C4 (amended: requires `chunk_size ≥ 1`): the chunks returned by
`chunk_text` are exactly the trimmed, nonempty remnants of a sequence of
contiguous, non-overlapping slices whose in-order concatenation is the whole
input text. -/
theorem chunk_text_reconstructs_text (text : List Char) (chunk_size : Nat)
    (hcs : 1 ≤ chunk_size) :
    chunk_text text chunk_size =
      ((chunkSpans text chunk_size).map pyStrip).filter (fun l => !l.isEmpty) ∧
    (chunkSpans text chunk_size).flatten = text := by
  refine ⟨chunk_text_from_eq_spans text chunk_size 0, ?_⟩
  simpa using chunkSpansFrom_flatten text chunk_size hcs 0

theorem chunk_text_reconstructs_text_witness :
    1 ≤ 3 ∧
    (chunk_text "ab cd".data 3 =
      ((chunkSpans "ab cd".data 3).map pyStrip).filter (fun l => !l.isEmpty) ∧
    (chunkSpans "ab cd".data 3).flatten = "ab cd".data) :=
  ⟨by decide, chunk_text_reconstructs_text "ab cd".data 3 (by decide)⟩

/-- C4 counterexample: at chunk size 0 the scan emits no chunk at all on the
nonempty text "a", so concatenating the chunks (even ignoring trimmed
whitespace — 'a' is not whitespace) does not reconstruct the input. -/
theorem chunk_text_cs_zero_drops_text :
    chunk_text "a".data 0 = [] ∧
    isPySpace 'a' = false ∧
    (chunk_text "a".data 0).flatten ≠ "a".data := by
  refine ⟨chunk_text_single_zero, by decide, ?_⟩
  rw [chunk_text_single_zero]
  decide

/-- C5 (amended: the at-least-one-chunk clause requires `chunk_size ≥ 1`):
the scan offset strictly advances at every iteration (so the loop terminates;
the recursion is well-founded on `text.length - start`), the empty text
yields the empty sequence, and a nonempty whitespace-free text yields at
least one chunk, the chunks jointly covering the whole text. -/
theorem chunk_text_terminates_and_covers (text : List Char) (chunk_size : Nat)
    (hcs : 1 ≤ chunk_size) (hne : text ≠ [])
    (hws : ∀ c ∈ text, isPySpace c = false) :
    (∀ (start end0 : Nat) (chunk : List Char),
        start < max (start + 1) (chunkEnd chunk_size chunk start end0)) ∧
    chunk_text [] chunk_size = [] ∧
    chunk_text text chunk_size ≠ [] ∧
    (chunk_text text chunk_size).flatten = text := by
  have hmem := chunkSpansFrom_mem text chunk_size hcs 0
  have heq : chunk_text text chunk_size = chunkSpans text chunk_size := by
    rw [chunk_text, chunk_text_from_eq_spans text chunk_size 0]
    show ((chunkSpans text chunk_size).map pyStrip).filter (fun l => !l.isEmpty) =
      chunkSpans text chunk_size
    have hid : (chunkSpans text chunk_size).map pyStrip = chunkSpans text chunk_size := by
      have : ∀ l ∈ chunkSpans text chunk_size, pyStrip l = l := by
        intro l hl
        obtain ⟨-, hsub⟩ := hmem l hl
        exact pyStrip_of_no_space l (fun c hc => hws c (hsub c hc))
      calc (chunkSpans text chunk_size).map pyStrip
          = (chunkSpans text chunk_size).map id := List.map_congr_left this
        _ = chunkSpans text chunk_size := List.map_id _
    rw [hid]
    rw [List.filter_eq_self]
    intro l hl
    obtain ⟨hne', -⟩ := hmem l hl
    simpa [List.isEmpty_iff] using hne'
  refine ⟨?_, ?_, ?_, ?_⟩
  · intro start end0 chunk
    exact lt_of_lt_of_le (Nat.lt_succ_self start) (le_max_left _ _)
  · rw [chunk_text, chunk_text_from.eq_def]
    simp
  · rw [heq, chunkSpans, chunkSpansFrom.eq_def]
    have h0 : 0 < text.length := List.length_pos.mpr hne
    simp [h0]
  · rw [heq]
    simpa using chunkSpansFrom_flatten text chunk_size hcs 0

theorem chunk_text_terminates_and_covers_witness :
    (1 ≤ 2 ∧ "ab".data ≠ [] ∧ (∀ c ∈ "ab".data, isPySpace c = false)) ∧
    ((∀ (start end0 : Nat) (chunk : List Char),
        start < max (start + 1) (chunkEnd 2 chunk start end0)) ∧
    chunk_text [] 2 = [] ∧
    chunk_text "ab".data 2 ≠ [] ∧
    (chunk_text "ab".data 2).flatten = "ab".data) :=
  ⟨⟨by decide, by decide, by decide⟩,
    chunk_text_terminates_and_covers "ab".data 2 (by decide) (by decide) (by decide)⟩

/-- C5 counterexample: at chunk size 0 the nonempty, whitespace-free,
punctuation-free text "a" yields no chunk at all, refuting the claim's
at-least-one-chunk clause as stated for every input. -/
theorem chunk_text_cs_zero_no_chunk :
    "a".data ≠ [] ∧ (∀ c ∈ "a".data, isPySpace c = false) ∧
    ¬ chunk_text "a".data 0 ≠ [] := by
  refine ⟨by decide, by decide, ?_⟩
  rw [chunk_text_single_zero]
  simp

/-- C6: enrichment never escapes its boundary: every summarize failure mode
(transport error, absent or ill-typed response field, or JSON decode
failure) yields exactly the fixed sentinel pair from the single request made
(no retry), and when every embed attempt raises, exactly the bounded
`max_retries = 3` exponential-backoff attempts are made (waits `2^0, 2^1`)
and the embedding is the zero vector of the configured dimensionality 768. -/
theorem enrichment_failure_sentinels (loads : String → Option PyJson)
    (call : GenOutcome) (s : String) (oracle : Nat → EmbedOutcome)
    (hcall : call = .transportError ∨ call = .response none ∨
      call = .response (some .other) ∨
      (call = .response (some (.str s)) ∧ loads s = none))
    (hemb : ∀ k, oracle k = .exn) :
    get_title_and_summary loads call = sentinelPair ∧
    get_embedding oracle = (some (List.replicate 768 0), 3) ∧
    (retry_with_backoff oracle 3 0).2.2 = [1, 2] := by
  have hr : retry_with_backoff oracle 3 0 = (Except.error (), 3, [1, 2]) := by
    rw [retry_with_backoff.eq_def]
    norm_num [hemb 0]
    rw [retry_with_backoff.eq_def]
    norm_num [hemb 1]
    rw [retry_with_backoff.eq_def]
    norm_num [hemb 2]
  refine ⟨?_, ?_, ?_⟩
  · rcases hcall with rfl | rfl | rfl | ⟨rfl, hl⟩
    · rfl
    · rfl
    · rfl
    · simp [get_title_and_summary, hl]
  · rw [get_embedding.eq_def]
    rw [hr]
  · rw [hr]

theorem enrichment_failure_sentinels_witness :
    ((GenOutcome.transportError = GenOutcome.transportError ∨
      GenOutcome.transportError = .response none ∨
      GenOutcome.transportError = .response (some .other) ∨
      (GenOutcome.transportError = .response (some (.str "")) ∧
        (fun _ : String => (none : Option PyJson)) "" = none)) ∧
    (∀ k : Nat, (fun _ : Nat => EmbedOutcome.exn) k = .exn)) ∧
    (get_title_and_summary (fun _ => none) .transportError = sentinelPair ∧
    get_embedding (fun _ => .exn) = (some (List.replicate 768 0), 3) ∧
    (retry_with_backoff (fun _ => .exn) 3 0).2.2 = [1, 2]) :=
  ⟨⟨Or.inl rfl, fun _ => rfl⟩,
    enrichment_failure_sentinels (fun _ => none) .transportError "" (fun _ => .exn)
      (Or.inl rfl) (fun _ => rfl)⟩

/-- C7 (amended): `add_url` inserts exactly when the URL's domain equals the
sitemap's domain — the root path is not consulted; the operation is
idempotent; and every `add_url` call preserves the invariant that each
member's domain equals the sitemap's domain. -/
theorem add_url_domain_only_invariant (s : SitemapGenerator) (url : String)
    (hinv : ∀ u ∈ s.urls, get_domain u = s.domain) :
    ((s.add_url url).urls =
      if get_domain url = s.domain then insert url s.urls else s.urls) ∧
    (s.add_url url).add_url url = s.add_url url ∧
    (∀ u ∈ (s.add_url url).urls, get_domain u = (s.add_url url).domain) := by
  refine ⟨?_, ?_, ?_⟩
  · rw [SitemapGenerator.add_url]
    split_ifs <;> rfl
  · by_cases h : get_domain url = s.domain
    · simp [SitemapGenerator.add_url, h, Finset.insert_idem]
    · simp [SitemapGenerator.add_url, h]
  · intro u hu
    rw [SitemapGenerator.add_url] at hu ⊢
    split_ifs at hu ⊢ with h
    · rcases Finset.mem_insert.mp hu with rfl | hu
      · exact h
      · exact hinv u hu
    · exact hinv u hu

theorem add_url_domain_only_invariant_witness :
    (∀ u ∈ (SitemapGenerator.mk "example.com" "http://example.com/docs" ∅).urls,
      get_domain u = "example.com") ∧
    (((SitemapGenerator.mk "example.com" "http://example.com/docs" ∅).add_url
        "http://example.com/docs/a").urls =
      if get_domain "http://example.com/docs/a" = "example.com" then
        insert "http://example.com/docs/a" (∅ : Finset String) else ∅) ∧
    ((SitemapGenerator.mk "example.com" "http://example.com/docs" ∅).add_url
        "http://example.com/docs/a").add_url "http://example.com/docs/a" =
      (SitemapGenerator.mk "example.com" "http://example.com/docs" ∅).add_url
        "http://example.com/docs/a" ∧
    (∀ u ∈ ((SitemapGenerator.mk "example.com" "http://example.com/docs" ∅).add_url
        "http://example.com/docs/a").urls,
      get_domain u = ((SitemapGenerator.mk "example.com" "http://example.com/docs"
        ∅).add_url "http://example.com/docs/a").domain) :=
  ⟨by decide,
    add_url_domain_only_invariant
      (SitemapGenerator.mk "example.com" "http://example.com/docs" ∅)
      "http://example.com/docs/a" (by decide)⟩

/-- C7 counterexample: a URL on the scope's host but outside the scope's root
path is inserted by `add_url` even though it fails the Scope Filter, so the
claimed invariant (every member satisfies the full Scope Filter) is violated
after one call. -/
theorem add_url_accepts_out_of_path_counterexample :
    "http://example.com/other" ∈
      ((SitemapGenerator.mk "example.com" "http://example.com/docs/" ∅).add_url
        "http://example.com/other").urls ∧
    should_crawl_url "http://example.com/other" "http://example.com/docs/" = false := by
  decide

/-- C8 (amended): loading immediately after saving with an unchanged scope
returns exactly the saved URLs that, after trailing-slash stripping, pass the
scope test against the start URL — a subset of the saved set, not in general
the saved set modulo normalization; a missing sitemap file loads as the empty
set rather than an error. -/
theorem load_after_save (s : SitemapGenerator) :
    load_urls (some s.save_sitemap) s.start_url =
      (s.urls.image rstripSlash).filter
        (fun u => should_crawl_url u s.start_url = true) ∧
    load_urls none s.start_url = ∅ := by
  refine ⟨?_, rfl⟩
  rw [load_urls_some]
  ext u
  simp only [List.mem_toFinset, List.mem_filter, List.mem_map, Finset.mem_filter,
    Finset.mem_image, SitemapGenerator.save_sitemap, Finset.mem_sort]

/-- C8 counterexample: a sitemap state reachable by one `add_url` call holds a
URL whose path lies outside the scope root; saving then loading with the
unchanged scope drops it, so the loaded set differs from the saved set even
modulo trailing-slash normalization. -/
theorem load_after_save_counterexample :
    "http://example.com/other" ∈
      ((SitemapGenerator.mk "example.com" "http://example.com/docs" ∅).add_url
        "http://example.com/other").urls ∧
    SitemapGenerator.save_sitemap
        (SitemapGenerator.mk "example.com" "http://example.com/docs"
          {"http://example.com/other"}) = ["http://example.com/other"] ∧
    rstripSlash "http://example.com/other" ∈
      ({"http://example.com/other"} : Finset String).image rstripSlash ∧
    rstripSlash "http://example.com/other" ∉
      load_urls (some ["http://example.com/other"]) "http://example.com/docs" := by
  refine ⟨by decide, Finset.sort_singleton _ _, ?_, by decide⟩
  exact Finset.mem_image_of_mem rstripSlash (Finset.mem_singleton_self _)

/-- C3 (amended): the scope test accepts `v` against the scope rooted at `u`
whenever the network locations are equal and `u`'s path is a literal string
prefix of `v`'s path; no trailing-slash normalization is performed. -/
theorem scope_accepts_literal_path_extension (u v : String)
    (hn : urlNetloc v = urlNetloc u)
    (hp : (urlPath u).data.isPrefixOf (urlPath v).data = true) :
    should_crawl_url v u = true := by
  unfold should_crawl_url
  rw [hn, hp]
  simp

theorem scope_accepts_literal_path_extension_witness :
    (urlNetloc "http://example.com/docs/page" = urlNetloc "http://example.com/docs") ∧
    ((urlPath "http://example.com/docs").data.isPrefixOf
      (urlPath "http://example.com/docs/page").data = true) ∧
    should_crawl_url "http://example.com/docs/page" "http://example.com/docs" = true :=
  ⟨by decide, by decide,
    scope_accepts_literal_path_extension "http://example.com/docs"
      "http://example.com/docs/page" (by decide) (by decide)⟩

/-- C3 counterexample: with start path `/docs/` and candidate path `/docs`
(the claim's own example) the scope test rejects: it is sensitive to the
trailing slash. -/
theorem scope_trailing_slash_counterexample :
    urlNetloc "http://example.com/docs" = urlNetloc "http://example.com/docs/" ∧
    urlPath "http://example.com/docs/" = "/docs/" ∧
    urlPath "http://example.com/docs" = "/docs" ∧
    should_crawl_url "http://example.com/docs" "http://example.com/docs/" = false := by
  decide

/-- C9 (amended): the sanitized key maps every non-alphanumeric character to
`_`, strips leading and trailing separators, and truncates to 200 characters;
the output holds only alphanumerics and separators and is at most 200 long.
Runs of consecutive separators are NOT collapsed. -/
theorem sanitize_filename_charset_and_bound (url : String) :
    (∀ c ∈ (sanitize_filename url).data, c.isAlphanum = true ∨ c = '_') ∧
    (sanitize_filename url).length ≤ 200 := by
  constructor
  · intro c hc
    have h1 : c ∈ stripChar '_'
        (((urlNetloc url).data ++ '_' :: stripChar '/' (urlPath url).data).map
          (fun c => if c.isAlphanum then c else '_')) :=
      (List.take_sublist 200 _).mem hc
    have h2 := mem_stripChar h1
    rw [List.mem_map] at h2
    obtain ⟨a, -, ha⟩ := h2
    by_cases hA : a.isAlphanum
    · left; rw [← ha]; simp [hA]
    · right; rw [← ha]; simp [hA]
  · show (List.take 200 _).length ≤ 200
    rw [List.length_take]
    exact min_le_left _ _

/-- C9 counterexample: `sanitize_filename` does not collapse runs of
separators: two hyphens in the URL yield two adjacent `_` in the output. -/
theorem sanitize_filename_no_collapse_counterexample :
    sanitize_filename "http://example.com/a--b" = "example_com_a__b" ∧
    noAdjacentSep (sanitize_filename "http://example.com/a--b").data = false := by
  decide

/-- C10: `sanitize_filename` is not injective: two distinct URLs differing only
in which non-alphanumeric character appears receive the same sanitized key, so
their chunk records with the same chunk number get the same file name. -/
theorem sanitize_filename_not_injective :
    ("http://example.com/a-b" : String) ≠ "http://example.com/a.b" ∧
    sanitize_filename "http://example.com/a-b" = sanitize_filename "http://example.com/a.b" ∧
    save_chunk_filename "http://example.com/a-b" 0 =
      save_chunk_filename "http://example.com/a.b" 0 := by
  refine ⟨by decide, by decide, ?_⟩
  show sanitize_filename "http://example.com/a-b" ++ "_chunk_" ++ toString 0 ++ ".json" =
    sanitize_filename "http://example.com/a.b" ++ "_chunk_" ++ toString 0 ++ ".json"
  decide

end Crawlaio
